import Mathlib

/-!
Shallow embedding of `encontrar_dispositivo.py`: a Cisco-style topology
walker that locates the access port serving a target IP.  Python strings
are modelled as Lean `String`s (char-list backed); the string methods the
script uses (`splitlines`, `strip`, `lower`, `split`, `replace`, `in`)
are modelled for the ASCII texts the parsers are written against.  The
regular expressions used by the script are fixed-shape patterns, modelled
as leftmost window searches.  Network I/O is modelled by an oracle
mapping host addresses to the command outputs a device would return.
-/

namespace NetTrace

/-! ### Python string-primitive models -/

/-- Python whitespace (`str.strip`, `str.split`, regex `\s`), ASCII range. -/
def pyIsSpace (c : Char) : Bool :=
  c.toNat = 32 || c.toNat = 9 || c.toNat = 10 || c.toNat = 13 || c.toNat = 11 || c.toNat = 12

/-- ASCII lower-casing, per character (model of `str.lower` on ASCII text). -/
def lowerChar (c : Char) : Char :=
  if 65 ≤ c.toNat && c.toNat ≤ 90 then Char.ofNat (c.toNat + 32) else c

/-- Model of `str.lower` (ASCII). -/
def pyLower (s : String) : String :=
  String.mk (s.toList.map lowerChar)

/-- Strip leading and trailing Python whitespace from a char list. -/
def pyStripL (l : List Char) : List Char :=
  ((l.dropWhile pyIsSpace).reverse.dropWhile pyIsSpace).reverse

/-- Model of `str.strip()`. -/
def pyStrip (s : String) : String :=
  String.mk (pyStripL s.toList)

/-- Model of `str.replace(c, "")` for a single-character pattern. -/
def removeChar (c : Char) (l : List Char) : List Char :=
  l.filter (fun x => x ≠ c)

/-- Split a char list at every occurrence of `c` (keeping empty pieces). -/
def splitAtCharAux (c : Char) : List Char → List Char → List (List Char)
  | [], acc => [acc.reverse]
  | x :: t, acc =>
    if x = c then acc.reverse :: splitAtCharAux c t []
    else splitAtCharAux c t (x :: acc)

/-- Model of `str.splitlines()` for texts whose only line break is `\n`
(Python drops a final empty piece produced by a trailing newline). -/
def pySplitlines (s : String) : List String :=
  let parts := (splitAtCharAux '\n' s.toList []).map String.mk
  if parts.getLast? = some "" then parts.dropLast else parts

/-- Whitespace-run splitter: model of argumentless `str.split()`,
which drops empty fields. -/
def splitWsAux : List Char → List Char → List String
  | [], acc => if acc = [] then [] else [String.mk acc.reverse]
  | c :: t, acc =>
    if pyIsSpace c then
      if acc = [] then splitWsAux t []
      else String.mk acc.reverse :: splitWsAux t []
    else splitWsAux t (c :: acc)

/-- Model of `str.split()` (split on whitespace runs). -/
def pySplitWs (s : String) : List String :=
  splitWsAux s.toList []

/-- Model of `str.startswith(pre)`. -/
def pyStartsWith (s pre : String) : Bool :=
  pre.toList.isPrefixOf s.toList

/-- Substring test on char lists: `sub` occurs inside `hay`. -/
def hasInfixL (sub : List Char) : List Char → Bool
  | [] => sub = []
  | c :: t => sub.isPrefixOf (c :: t) || hasInfixL sub t

/-- Model of Python's `sub in hay` substring test. -/
def pyContains (hay sub : String) : Bool :=
  hasInfixL sub.toList hay.toList

/-! ### Character classes used by the script's regular expressions -/

/-- Regex class `[0-9a-f]` under `re.I`: a hex digit of either case. -/
def isHexCI (c : Char) : Bool :=
  (48 ≤ c.toNat && c.toNat ≤ 57) || (97 ≤ c.toNat && c.toNat ≤ 102) ||
  (65 ≤ c.toNat && c.toNat ≤ 70)

/-- A lower-case hex digit (`0`-`9`, `a`-`f`). -/
def isLowerHex (c : Char) : Bool :=
  (48 ≤ c.toNat && c.toNat ≤ 57) || (97 ≤ c.toNat && c.toNat ≤ 102)

/-- Regex class `[\d.]`: a decimal digit or a dot. -/
def isDigitDot (c : Char) : Bool :=
  (48 ≤ c.toNat && c.toNat ≤ 57) || c = '.'

/-- Regex alternative `(:|-)`: a colon or dash separator. -/
def isSepCD (c : Char) : Bool :=
  c = ':' || c = '-'

/-! ### The source's fixed data (`COMMON_USERNAMES`, `COMMON_PASSWORDS`) -/

def COMMON_USERNAMES : List String := ["cisco", "admin", "cisco123"]

def COMMON_PASSWORDS : List String := ["cisco", "cisco123", "cisco99", "admin"]

/-! ### `normalize_mac_to_dots` -/

/-- Re-emission of 12 characters as three dot-separated groups of four
(the f-string at the end of `normalize_mac_to_dots`). -/
def fmtDots (l : List Char) : String :=
  String.mk (l.take 4) ++ "." ++ String.mk ((l.drop 4).take 4) ++ "." ++
    String.mk ((l.drop 8).take 4)

/-- The stripped form computed inside `normalize_mac_to_dots`:
`mac_raw.strip().lower().replace(".", "").replace(":", "").replace("-", "")`. -/
def macStrippedForm (mac_raw : String) : List Char :=
  removeChar '-' (removeChar ':' (removeChar '.' ((pyStripL mac_raw.toList).map lowerChar)))

/-- `normalize_mac_to_dots` from the source: `None` on a falsy (empty)
input, `None` unless the stripped form has exactly 12 characters,
otherwise the dot-grouped re-emission. -/
def normalize_mac_to_dots (mac_raw : String) : Option String :=
  if mac_raw = "" then none
  else
    let s := macStrippedForm mac_raw
    if s.length ≠ 12 then none
    else some (fmtDots s)

/-! ### Regex models for `find_mac_in_arp` -/

/-- Shape of regex `([0-9a-f]{4}\.[0-9a-f]{4}\.[0-9a-f]{4})` (a full
14-character window). -/
def dottedShape : List Char → Bool
  | [a1, a2, a3, a4, d1, b1, b2, b3, b4, d2, c1, c2, c3, c4] =>
    isHexCI a1 && isHexCI a2 && isHexCI a3 && isHexCI a4 && d1 = '.' &&
    isHexCI b1 && isHexCI b2 && isHexCI b3 && isHexCI b4 && d2 = '.' &&
    isHexCI c1 && isHexCI c2 && isHexCI c3 && isHexCI c4
  | _ => false

/-- Leftmost search of the dotted-quad MAC pattern. -/
def searchDotted : List Char → Option (List Char)
  | [] => none
  | c :: t =>
    if dottedShape ((c :: t).take 14) then some ((c :: t).take 14)
    else searchDotted t

/-- Shape of regex `([0-9a-f]{2}(:|-)){5}[0-9a-f]{2}` (a full
17-character window; the separator may differ between groups). -/
def colonDashShape : List Char → Bool
  | [a1, a2, s1, b1, b2, s2, c1, c2, s3, d1, d2, s4, e1, e2, s5, f1, f2] =>
    isHexCI a1 && isHexCI a2 && isSepCD s1 && isHexCI b1 && isHexCI b2 && isSepCD s2 &&
    isHexCI c1 && isHexCI c2 && isSepCD s3 && isHexCI d1 && isHexCI d2 && isSepCD s4 &&
    isHexCI e1 && isHexCI e2 && isSepCD s5 && isHexCI f1 && isHexCI f2
  | _ => false

/-- Leftmost search of the colon/dash-separated MAC pattern. -/
def searchColonDash : List Char → Option (List Char)
  | [] => none
  | c :: t =>
    if colonDashShape ((c :: t).take 17) then some ((c :: t).take 17)
    else searchColonDash t

/-- Shape of regex `([0-9a-f]{12})`: 12 contiguous hex characters. -/
def hex12Shape (w : List Char) : Bool :=
  w.length = 12 && w.all isHexCI

/-- Leftmost search of 12 contiguous hex characters. -/
def searchHex12 : List Char → Option (List Char)
  | [] => none
  | c :: t =>
    if hex12Shape ((c :: t).take 12) then some ((c :: t).take 12)
    else searchHex12 t

/-- The body of `find_mac_in_arp`'s per-line regex cascade: try the
dotted form, then colon/dash octets, then 12 contiguous hex characters
on the line with spaces removed; `none` when no pattern matches. -/
def lineMacRaw (line : String) : Option String :=
  match searchDotted line.toList with
  | some w => some (String.mk w)
  | none =>
    match searchColonDash line.toList with
    | some w => some (String.mk w)
    | none =>
      match searchHex12 (removeChar ' ' line.toList) with
      | some w => some (String.mk w)
      | none => none

/-- Loop of `find_mac_in_arp`: scan lines; on a line containing the
target IP, return `normalize_mac_to_dots` of the first pattern match if
any pattern matches, otherwise keep scanning later lines. -/
def findMacGo (ip_target : String) : List String → Option String
  | [] => none
  | line :: rest =>
    if pyContains line ip_target then
      match lineMacRaw line with
      | some raw => normalize_mac_to_dots raw
      | none => findMacGo ip_target rest
    else findMacGo ip_target rest

/-- `find_mac_in_arp` from the source. -/
def find_mac_in_arp (arp_output ip_target : String) : Option String :=
  findMacGo ip_target (pySplitlines arp_output)

/-! ### `find_interface_by_mac` -/

/-- Loop of `find_interface_by_mac`: on a line containing the MAC
case-insensitively, return the last whitespace field when the line has
at least 4 fields, otherwise keep scanning. -/
def findIntfGo (mac_normalized : String) : List String → Option String
  | [] => none
  | line :: rest =>
    if mac_normalized ≠ "" && pyContains (pyLower line) (pyLower mac_normalized) then
      let parts := pySplitWs line
      if parts.length ≥ 4 then parts.getLast? else findIntfGo mac_normalized rest
    else findIntfGo mac_normalized rest

/-- `find_interface_by_mac` from the source. -/
def find_interface_by_mac (mac_table_output mac_normalized : String) : Option String :=
  findIntfGo mac_normalized (pySplitlines mac_table_output)

/-! ### `parse_cdp_int_detail_for_ip` -/

/-- The dictionary returned by `parse_cdp_int_detail_for_ip`. -/
structure CdpNeighbor where
  device_id : String
  ips : List String
  neighbor_port : Option String
deriving DecidableEq, Repr

/-- Text after the first colon of a line
(`line.split(":", 1)[1]`; the caller guarantees a colon exists). -/
def afterFirstColon (l : List Char) : List Char :=
  ((l.dropWhile (fun c => c ≠ ':')).drop 1)

/-- Regex `IP address:\s*([\d.]+)` matched at the head of `l`:
the literal, optional whitespace, then a nonempty greedy digit/dot run. -/
def matchIpAt (l : List Char) : Option String :=
  if "IP address:".toList.isPrefixOf l then
    let rest := (l.drop 11).dropWhile pyIsSpace
    let run := rest.takeWhile isDigitDot
    if run = [] then none else some (String.mk run)
  else none

/-- Leftmost search of the `IP address:` pattern in a line. -/
def searchIp : List Char → Option String
  | [] => none
  | c :: t =>
    match matchIpAt (c :: t) with
    | some r => some r
    | none => searchIp t

/-- Tail of regex `Port ID .*:\s*(\S+)` after the literal: the greedy
`.*:` binds to the LAST colon after which `\s*(\S+)` still matches. -/
def portColonSearch : List Char → Option String
  | [] => none
  | c :: t =>
    match portColonSearch t with
    | some r => some r
    | none =>
      if c = ':' then
        let rest := t.dropWhile pyIsSpace
        let tok := rest.takeWhile (fun x => !pyIsSpace x)
        if tok = [] then none else some (String.mk tok)
      else none

/-- Regex `Port ID .*:\s*(\S+)` matched at the head of `l`. -/
def matchPortAt (l : List Char) : Option String :=
  if "Port ID ".toList.isPrefixOf l then portColonSearch (l.drop 8)
  else none

/-- Leftmost search of the `Port ID` pattern in a line. -/
def searchPort : List Char → Option String
  | [] => none
  | c :: t =>
    match matchPortAt (c :: t) with
    | some r => some r
    | none => searchPort t

/-- Accumulator of `parse_cdp_int_detail_for_ip`'s line loop:
`device_id`, `ips`, `neighbor_port` (all start falsy/empty). -/
structure CdpSt where
  device_id : Option String
  ips : List String
  neighbor_port : Option String
deriving DecidableEq, Repr

/-- One iteration of the line loop: the line is stripped; a
`device id:` line (case-insensitive) overwrites `device_id` with the
stripped text after the first colon; an `IP address:` match appends one
IP; a `Port ID` match overwrites `neighbor_port`. -/
def cdpStep (st : CdpSt) (rawLine : String) : CdpSt :=
  let line := pyStrip rawLine
  let d :=
    if pyStartsWith (pyLower line) "device id:" then
      some (String.mk (pyStripL (afterFirstColon line.toList)))
    else st.device_id
  let i :=
    match searchIp line.toList with
    | some ip => st.ips ++ [ip]
    | none => st.ips
  let p :=
    match searchPort line.toList with
    | some q => some q
    | none => st.neighbor_port
  ⟨d, i, p⟩

/-- `parse_cdp_int_detail_for_ip` from the source.  Returns `None` on a
falsy text or one lacking the literal `Device ID`; after the loop,
returns the record only if `device_id` is truthy (set and nonempty). -/
def parse_cdp_int_detail_for_ip (cdp_output : String) : Option CdpNeighbor :=
  if cdp_output = "" || !pyContains cdp_output "Device ID" then none
  else
    let st := (pySplitlines cdp_output).foldl cdpStep ⟨none, [], none⟩
    match st.device_id with
    | some d => if d = "" then none else some ⟨d, st.ips, st.neighbor_port⟩
    | none => none

/-! ### `get_hostname_from_show_ver` -/

/-- Loop of `get_hostname_from_show_ver`: on each line, first a line
containing `" uptime "` returns its first whitespace token; then a line
whose lower-casing starts with `hostname` and that has at least two
whitespace tokens returns its last token; otherwise continue. -/
def hostnameGo : List String → Option String
  | [] => none
  | line :: rest =>
    if pyContains line " uptime " then (pySplitWs line).headD "" |> some
    else
      if pyStartsWith (pyLower line) "hostname" then
        let parts := pySplitWs line
        if parts.length ≥ 2 then parts.getLast? else hostnameGo rest
      else hostnameGo rest

/-- `get_hostname_from_show_ver` from the source. -/
def get_hostname_from_show_ver (show_ver : String) : Option String :=
  hostnameGo (pySplitlines show_ver)

/-! ### `try_connect`: the candidate-list construction

The network side of `try_connect` (netmiko `ConnectHandler`) is
abstracted by an authentication oracle; the candidate list `combos` is
translated exactly. -/

/-- `combos.append((u, p))` guarded by `if (u, p) not in combos`. -/
def dedupPush (acc : List (String × String)) (x : String × String) : List (String × String) :=
  if x ∈ acc then acc else acc ++ [x]

/-- The ordered candidate list `combos` built by `try_connect`:
the given pair; the given user with each fallback password (excluding
the given one); each fallback user with the given password (excluding
the given user); then the fallback cross-product, skipping pairs
already present. -/
def build_combos (user_given pass_given : String) : List (String × String) :=
  let c0 := [(user_given, pass_given)]
    ++ (COMMON_PASSWORDS.filter (fun p => p ≠ pass_given)).map (fun p => (user_given, p))
    ++ (COMMON_USERNAMES.filter (fun u => u ≠ user_given)).map (fun u => (u, pass_given))
  COMMON_USERNAMES.foldl
    (fun acc u => COMMON_PASSWORDS.foldl (fun acc2 p => dedupPush acc2 (u, p)) acc) c0

/-! ### The topology walker `rastrear_ip_hasta_host`

A device is modelled by the texts its CLI returns and an authentication
predicate; the network is an oracle from host address to an optional
device (`none` = unreachable, every connection attempt fails). -/

/-- One device's observable behavior: which credential pairs
authenticate, and the raw text answers to the commands the walker sends
(`show version`, `show ip arp`, both MAC-table commands, and
`show cdp neighbors <interface> detail` keyed by interface name). -/
structure Device where
  auth_ok : String → String → Bool
  show_ver : String
  arp : String
  mac_table : String
  mac_table_alt : String
  cdp : String → String

/-- A network: host address to optional device. -/
def Net : Type := String → Option Device

/-- `try_connect` over the oracle: the first candidate pair accepted by
the device wins; an unreachable host (or no accepted pair) yields
`(None, None)`. -/
def try_connect (dev : Option Device) (user_given pass_given : String) :
    Option (Device × (String × String)) :=
  match dev with
  | none => none
  | some d =>
    match (build_combos user_given pass_given).find? (fun c => d.auth_ok c.1 c.2) with
    | some c => some (d, c)
    | none => none

/-- The MAC-table text the walker actually parses: the alternate
command's output when the primary's is falsy or contains
`Invalid input`. -/
def selectMacTable (d : Device) : String :=
  if d.mac_table = "" || pyContains d.mac_table "Invalid input" then d.mac_table_alt
  else d.mac_table

/-- The final answer dictionary of `rastrear_ip_hasta_host`. -/
structure TraceResult where
  ip : String
  device : String
  interface : String
  mac : String
deriving DecidableEq, Repr

/-- Outcome of one iteration of the walker's `while True` body. -/
inductive HopOutcome where
  | fail : HopOutcome
  | done : TraceResult → HopOutcome
  | next : String → HopOutcome
deriving DecidableEq, Repr

/-- One iteration of the walker's loop body at `current_host`:
connect (bounded credential search); extract the hostname with the
dialed address as fallback; resolve the target IP in ARP (Python
truthiness: an empty MAC string also fails); look the MAC up in the
MAC table (with the alternate-command fallback); query CDP on the found
interface; then decide terminal versus transit. -/
def hop (net : Net) (user pwd ip_objetivo current_host : String) : HopOutcome :=
  match try_connect (net current_host) user pwd with
  | none => .fail
  | some (d, _) =>
    let hostname := (get_hostname_from_show_ver d.show_ver).getD current_host
    match find_mac_in_arp d.arp ip_objetivo with
    | none => .fail
    | some mac_found =>
      if mac_found = "" then .fail
      else
        match find_interface_by_mac (selectMacTable d) mac_found with
        | none => .fail
        | some intf =>
          if intf = "" then .fail
          else
            match parse_cdp_int_detail_for_ip (d.cdp intf) with
            | none => .done ⟨ip_objetivo, hostname, intf, mac_found⟩
            | some vecino =>
              match vecino.ips with
              | [] => .done ⟨ip_objetivo, hostname, intf, mac_found⟩
              | next_host :: _ => .next next_host

/-- Fuel-bounded unfolding of the walker's `while True` loop.  The outer
`Option` is `none` when the loop has not finished within `fuel`
iterations; `some r` means the Python function returned, with `r` its
return value (`None` or the answer).  The source also creates a
`visited_hosts` set, but never inserts into it nor reads it, so it does
not appear in the model. -/
def rastrear_fuel (net : Net) (user pwd ip_objetivo : String) :
    Nat → String → Option (Option TraceResult)
  | 0, _ => none
  | fuel + 1, current_host =>
    match hop net user pwd ip_objetivo current_host with
    | .fail => some none
    | .done r => some (some r)
    | .next h => rastrear_fuel net user pwd ip_objetivo fuel h

/-! ### Concrete network fixtures -/

/-- A device whose CDP answer on the resolved port names the device's
own address `10.0.0.1` as neighbor IP: the smallest topology in which
neighbor discovery points back to an already-visited host. -/
def cycleDevice : Device where
  auth_ok := fun _ _ => true
  show_ver := "SW1 uptime is 1 week"
  arp := "Internet  10.9.9.9   -   aabb.ccdd.eeff  ARPA  Vlan1"
  mac_table := "  1    aabb.ccdd.eeff    DYNAMIC     Gi1/0/1"
  mac_table_alt := ""
  cdp := fun _ => "Device ID: SW1\nIP address: 10.0.0.1\nPort ID (outgoing port): Gi0/1"

/-- The one-device cyclic network built from `cycleDevice`. -/
def cycleNet : Net := fun h => if h = "10.0.0.1" then some cycleDevice else none

/-- An access switch: primary MAC-table command unsupported (alternate
used), only `cisco`/`cisco99` authenticates, no CDP neighbor on the
resolved port. -/
def accessDevice : Device where
  auth_ok := fun u p => u = "cisco" && p = "cisco99"
  show_ver := "SW9 uptime is 2 days"
  arp := "Internet  10.9.9.9   -   AA-BB-CC-DD-EE-FF  ARPA  Vlan1"
  mac_table := "bad Invalid input"
  mac_table_alt := " 1 aabb.ccdd.eeff DYNAMIC Fa0/7"
  cdp := fun _ => "no neighbors on this port"

/-- A single-switch network around `accessDevice`. -/
def accessNet : Net := fun h => if h = "s1" then some accessDevice else none

/-- A network on which every connection attempt fails. -/
def unreachableNet : Net := fun _ => none

/-! ### Claim C1 -/

/-- C1 (code_bug evidence).  The claim says that on a topology where CDP
neighbor discovery names an already-visited host the walk terminates
with failure.  The source creates `visited_hosts` but never inserts into
it nor consults it, so on `cycleNet` — whose only device reports itself
as CDP neighbor — the loop re-dials `10.0.0.1` forever: for every fuel
bound the loop has not returned.  The code therefore loops indefinitely
instead of failing. -/
theorem C1_cyclic_walk_never_returns :
    ∀ fuel : Nat,
      rastrear_fuel cycleNet "user" "clave" "10.9.9.9" fuel "10.0.0.1" = none := by
  intro fuel
  induction fuel with
  | zero => rfl
  | succ n ih =>
    have h : hop cycleNet "user" "clave" "10.9.9.9" "10.0.0.1" = .next "10.0.0.1" := by
      decide
    simp [rastrear_fuel, h, ih]

/-! ### Claim C2 -/

/-- C2.  At a hop where connection, ARP resolution and MAC-table lookup
all succeeded, the walker is terminal exactly when CDP parsing returned
none or a neighbor with zero IPs; a terminal hop returns
`TraceResult` with the target IP, the extracted hostname (dialed
address as fallback), the discovered interface and the resolved MAC;
otherwise the walker continues with the first neighbor IP in encounter
order. -/
theorem C2_hop_decision (net : Net) (user pwd ip host : String)
    (d : Device) (creds : String × String)
    (hc : try_connect (net host) user pwd = some (d, creds))
    (mac intf : String)
    (hm : find_mac_in_arp d.arp ip = some mac) (hm0 : mac ≠ "")
    (hi : find_interface_by_mac (selectMacTable d) mac = some intf) (hi0 : intf ≠ "") :
    (∀ r, hop net user pwd ip host = .done r →
        r = ⟨ip, (get_hostname_from_show_ver d.show_ver).getD host, intf, mac⟩)
    ∧ (hop net user pwd ip host
        = .done ⟨ip, (get_hostname_from_show_ver d.show_ver).getD host, intf, mac⟩
        ↔ parse_cdp_int_detail_for_ip (d.cdp intf) = none
          ∨ ∃ v, parse_cdp_int_detail_for_ip (d.cdp intf) = some v ∧ v.ips = [])
    ∧ (∀ v nh t, parse_cdp_int_detail_for_ip (d.cdp intf) = some v → v.ips = nh :: t →
        hop net user pwd ip host = .next nh) := by
  have hhop : hop net user pwd ip host =
      match parse_cdp_int_detail_for_ip (d.cdp intf) with
      | none => .done ⟨ip, (get_hostname_from_show_ver d.show_ver).getD host, intf, mac⟩
      | some vecino =>
        match vecino.ips with
        | [] => .done ⟨ip, (get_hostname_from_show_ver d.show_ver).getD host, intf, mac⟩
        | next_host :: _ => .next next_host := by
    unfold hop
    rw [hc]
    dsimp only
    rw [hm]
    dsimp only
    rw [if_neg hm0, hi]
    dsimp only
    rw [if_neg hi0]
  rcases hp : parse_cdp_int_detail_for_ip (d.cdp intf) with _ | v
  · rw [hp] at hhop
    dsimp only at hhop
    refine ⟨fun r hr => ?_, ⟨fun _ => Or.inl rfl, fun _ => hhop⟩, fun v nh t hv => by simp at hv⟩
    rw [hhop] at hr
    exact (HopOutcome.done.inj hr).symm
  · rw [hp] at hhop
    dsimp only at hhop
    rcases hips : v.ips with _ | ⟨nh, t⟩
    · rw [hips] at hhop
      refine ⟨fun r hr => ?_, ⟨fun _ => Or.inr ⟨v, rfl, hips⟩, fun _ => hhop⟩,
        fun v' nh t hv hips' => ?_⟩
      · rw [hhop] at hr
        exact (HopOutcome.done.inj hr).symm
      · obtain rfl : v = v' := by simpa using hv
        rw [hips] at hips'
        exact absurd hips' (by simp)
    · rw [hips] at hhop
      refine ⟨fun r hr => ?_, ⟨fun h => ?_, fun h => ?_⟩, fun v' nh' t' hv hips' => ?_⟩
      · rw [hhop] at hr
        exact absurd hr (by simp)
      · rw [hhop] at h
        exact absurd h (by simp)
      · rcases h with h | ⟨v1, hv1, hips1⟩
        · exact absurd h (by simp)
        · obtain rfl : v = v1 := by simpa using hv1
          rw [hips] at hips1
          exact absurd hips1 (by simp)
      · obtain rfl : v = v' := by simpa using hv
        rw [hips] at hips'
        obtain ⟨rfl, rfl⟩ := List.cons.inj hips'
        rw [hhop]

/-- Witness for C2: on the concrete `accessNet` the hypotheses hold and
the hop is terminal with the predicted record. -/
theorem C2_hop_decision_witness :
    hop accessNet "u" "p" "10.9.9.9" "s1"
      = .done ⟨"10.9.9.9", "SW9", "Fa0/7", "aabb.ccdd.eeff"⟩ := by
  have h := C2_hop_decision accessNet "u" "p" "10.9.9.9" "s1" accessDevice
    ("cisco", "cisco99") rfl "aabb.ccdd.eeff" "Fa0/7"
    (by decide) (by decide) (by decide) (by decide)
  have h2 := h.2.1.mpr (Or.inl (by decide))
  have hname : (get_hostname_from_show_ver accessDevice.show_ver).getD "s1" = "SW9" := by
    decide
  rw [hname] at h2
  exact h2

/-! ### Claim C3 -/

/-- A failed hop ends the whole trace immediately with `None`. -/
theorem hop_fail_step (net : Net) (user pwd ip host : String) (n : Nat)
    (h : hop net user pwd ip host = .fail) :
    rastrear_fuel net user pwd ip (n + 1) host = some none := by
  unfold rastrear_fuel
  rw [h]

/-- C3.  Whole-trace failure semantics: at any hop, a credential-
negotiation failure, an ARP-resolution failure, or a MAC-table-lookup
failure each end the whole trace with `None` (no partial result);
hostname-extraction failure never aborts — a terminal result produced
under it carries the dialed host address as display name. -/
theorem C3_failure_semantics (net : Net) (user pwd ip host : String) (n : Nat) :
    (try_connect (net host) user pwd = none →
        rastrear_fuel net user pwd ip (n + 1) host = some none)
    ∧ (∀ d c, try_connect (net host) user pwd = some (d, c) →
        find_mac_in_arp d.arp ip = none →
        rastrear_fuel net user pwd ip (n + 1) host = some none)
    ∧ (∀ d c mac, try_connect (net host) user pwd = some (d, c) →
        find_mac_in_arp d.arp ip = some mac → mac ≠ "" →
        find_interface_by_mac (selectMacTable d) mac = none →
        rastrear_fuel net user pwd ip (n + 1) host = some none)
    ∧ (∀ d c r, try_connect (net host) user pwd = some (d, c) →
        get_hostname_from_show_ver d.show_ver = none →
        hop net user pwd ip host = .done r → r.device = host) := by
  refine ⟨fun hc => ?_, fun d c hc hm => ?_, fun d c mac hc hm hm0 hi => ?_,
    fun d c r hc hh => ?_⟩
  · apply hop_fail_step
    unfold hop
    rw [hc]
  · apply hop_fail_step
    unfold hop
    rw [hc]
    dsimp only
    rw [hm]
  · apply hop_fail_step
    unfold hop
    rw [hc]
    dsimp only
    rw [hm]
    dsimp only
    rw [if_neg hm0, hi]
  · unfold hop
    rw [hc]
    dsimp only
    rw [hh]
    dsimp only [Option.getD]
    intro h
    split at h
    · exact absurd h (by simp)
    · split at h
      · exact absurd h (by simp)
      · split at h
        · exact absurd h (by simp)
        · split at h
          · exact absurd h (by simp)
          · split at h
            · exact congrArg TraceResult.device (HopOutcome.done.inj h).symm
            · split at h
              · exact congrArg TraceResult.device (HopOutcome.done.inj h).symm
              · exact absurd h (by simp)

/-- Witness for C3: on the all-unreachable network the first hypothesis
holds and the one-step trace fails with `None`. -/
theorem C3_failure_semantics_witness :
    rastrear_fuel unreachableNet "u" "p" "10.0.0.9" 1 "sw" = some none :=
  (C3_failure_semantics unreachableNet "u" "p" "10.0.0.9" "sw" 0).1 rfl

/-! ### Claim C4 -/

/-- A guarded append keeps the candidate list duplicate-free. -/
theorem dedupPush_nodup (acc : List (String × String)) (x : String × String)
    (h : acc.Nodup) : (dedupPush acc x).Nodup := by
  unfold dedupPush
  split
  · exact h
  · rename_i hx
    rw [List.nodup_append]
    exact ⟨h, List.nodup_singleton x, fun y hy hy' => hx ((List.mem_singleton.mp hy') ▸ hy)⟩

/-- Folding any Nodup-preserving step preserves Nodup. -/
theorem foldl_nodup {β : Type} (f : List (String × String) → β → List (String × String))
    (hf : ∀ acc b, acc.Nodup → (f acc b).Nodup) :
    ∀ (l : List β) (acc : List (String × String)), acc.Nodup → (l.foldl f acc).Nodup := by
  intro l
  induction l with
  | nil => intro acc h; exact h
  | cons b t ih => intro acc h; exact ih (f acc b) (hf acc b h)

/-- A guarded append grows the list by at most one element. -/
theorem dedupPush_len (acc : List (String × String)) (x : String × String) :
    (dedupPush acc x).length ≤ acc.length + 1 := by
  unfold dedupPush
  split
  · omega
  · simp

/-- Folding guarded appends grows the list by at most one per element. -/
theorem foldl_dedup_len (g : String → String × String) :
    ∀ (l : List String) (acc : List (String × String)),
      (l.foldl (fun a p => dedupPush a (g p)) acc).length ≤ acc.length + l.length := by
  intro l
  induction l with
  | nil => intro acc; simp
  | cons b t ih =>
    intro acc
    calc (t.foldl (fun a p => dedupPush a (g p)) (dedupPush acc (g b))).length
        ≤ (dedupPush acc (g b)).length + t.length := ih _
      _ ≤ acc.length + 1 + t.length := by
          have := dedupPush_len acc (g b); omega
      _ = acc.length + (b :: t).length := by simp; omega

/-- The three targeted segments of the candidate list are already
duplicate-free for every operator-supplied pair. -/
theorem c0_nodup (ug pg : String) :
    ([(ug, pg)]
      ++ (COMMON_PASSWORDS.filter (fun p => p ≠ pg)).map (fun p => (ug, p))
      ++ (COMMON_USERNAMES.filter (fun u => u ≠ ug)).map (fun u => (u, pg))).Nodup := by
  rw [List.nodup_append, List.nodup_append]
  refine ⟨⟨List.nodup_singleton _, ?_, ?_⟩, ?_, ?_⟩
  · refine List.Nodup.map ?_ (List.Nodup.filter _ (by decide))
    intro a b hab
    simpa using hab
  · intro y hy hy'
    simp only [List.mem_singleton] at hy
    obtain ⟨p, hp, hpe⟩ := List.mem_map.mp hy'
    have hpne : p ≠ pg := by
      have := List.of_mem_filter hp
      simpa using this
    rw [hy] at hpe
    simp only [Prod.mk.injEq] at hpe
    exact hpne hpe.2
  · refine List.Nodup.map ?_ (List.Nodup.filter _ (by decide))
    intro a b hab
    simpa using hab
  · intro y hy hy'
    obtain ⟨u, hu, hue⟩ := List.mem_map.mp hy'
    have hune : u ≠ ug := by
      have := List.of_mem_filter hu
      simpa using this
    rcases List.mem_append.mp hy with h1 | h2
    · simp only [List.mem_singleton] at h1
      rw [h1] at hue
      simp only [Prod.mk.injEq] at hue
      exact hune hue.1
    · obtain ⟨p, hp, hpe⟩ := List.mem_map.mp h2
      rw [← hpe] at hue
      simp only [Prod.mk.injEq] at hue
      exact hune hue.1

/-- C4 counterexample.  With operator credentials outside the fallback
lists (`("x", "y")`), the candidate list is duplicate-free, has 20
distinct pairs, and 20 exceeds the claimed bound N·M + 2 = 3·4 + 2. -/
theorem C4_bound_counterexample :
    (build_combos "x" "y").Nodup ∧ (build_combos "x" "y").length = 20 ∧
      ¬ ((build_combos "x" "y").length
          ≤ COMMON_USERNAMES.length * COMMON_PASSWORDS.length + 2) := by
  refine ⟨by decide, by decide, by decide⟩

/-- C4 amended.  For every operator-supplied pair the candidate list
contains no repeated (username, password) pair, and its length is at
most (N + 1)·(M + 1) = N·M + N + M + 1 — the cross-product plus up to
M + N single-fallback pairs plus the operator pair — rather than the
claimed N·M + 2. -/
theorem C4_no_repeats_and_bound (ug pg : String) :
    (build_combos ug pg).Nodup ∧
      (build_combos ug pg).length
        ≤ (COMMON_USERNAMES.length + 1) * (COMMON_PASSWORDS.length + 1) := by
  constructor
  · unfold build_combos
    refine foldl_nodup _ ?_ _ _ (c0_nodup ug pg)
    intro acc u hacc
    exact foldl_nodup _ (fun a p h => dedupPush_nodup a (u, p) h) _ _ hacc
  · unfold build_combos
    have houter : ∀ (us : List String) (acc : List (String × String)),
        ((us.foldl
            (fun acc u => COMMON_PASSWORDS.foldl (fun acc2 p => dedupPush acc2 (u, p)) acc)
            acc).length ≤ acc.length + us.length * COMMON_PASSWORDS.length) := by
      intro us
      induction us with
      | nil => intro acc; simp
      | cons u t ih =>
        intro acc
        calc (t.foldl
                (fun acc u => COMMON_PASSWORDS.foldl (fun acc2 p => dedupPush acc2 (u, p)) acc)
                (COMMON_PASSWORDS.foldl (fun acc2 p => dedupPush acc2 (u, p)) acc)).length
            ≤ (COMMON_PASSWORDS.foldl (fun acc2 p => dedupPush acc2 (u, p)) acc).length
                + t.length * COMMON_PASSWORDS.length := ih _
          _ ≤ acc.length + COMMON_PASSWORDS.length
                + t.length * COMMON_PASSWORDS.length := by
              have := foldl_dedup_len (fun p => (u, p)) COMMON_PASSWORDS acc
              omega
          _ = acc.length + (u :: t).length * COMMON_PASSWORDS.length := by
              simp [Nat.succ_mul]
              omega
    refine le_trans (houter COMMON_USERNAMES _) ?_
    have h1 : (COMMON_PASSWORDS.filter (fun p => p ≠ pg)).length
        ≤ COMMON_PASSWORDS.length := List.length_filter_le _ _
    have h2 : (COMMON_USERNAMES.filter (fun u => u ≠ ug)).length
        ≤ COMMON_USERNAMES.length := List.length_filter_le _ _
    simp only [List.length_append, List.length_map, List.length_cons, List.length_nil]
    have hu : COMMON_USERNAMES.length = 3 := by decide
    have hp : COMMON_PASSWORDS.length = 4 := by decide
    rw [hu, hp]
    omega

/-! ### Claim C5 -/

/-- C5 counterexample.  `"zzzzzzzzzzzz"` strips to 12 characters none of
which is hexadecimal, yet the function returns a result instead of the
`none` the claim requires: the length is checked but hexadecimality is
not. -/
theorem C5_nonhex_counterexample :
    normalize_mac_to_dots "zzzzzzzzzzzz" = some "zzzz.zzzz.zzzz" ∧
      (macStrippedForm "zzzzzzzzzzzz").length = 12 ∧
      (macStrippedForm "zzzzzzzzzzzz").all isHexCI = false := by
  refine ⟨by decide, by decide, by decide⟩

/-- C5 amended.  `normalize_mac_to_dots` strips the separators and
surrounding whitespace and lower-cases; it returns a result exactly when
the stripped string consists of exactly 12 characters — hexadecimality
is NOT checked — re-emitting them as three dot-separated groups of
four; every input whose stripped form is not exactly 12 characters long
yields none. -/
theorem C5_normalize_length_only (s : String) :
    normalize_mac_to_dots s =
      if (macStrippedForm s).length = 12 then some (fmtDots (macStrippedForm s)) else none := by
  unfold normalize_mac_to_dots
  by_cases hs : s = ""
  · subst hs
    decide
  · rw [if_neg hs]
    dsimp only
    by_cases hl : (macStrippedForm s).length = 12
    · rw [if_pos hl, if_neg (by omega)]
    · rw [if_neg hl, if_pos hl]

/-! ### Claim C6 -/

/-- The scan of `find_mac_in_arp` returns the normalization of the
pattern match found on the FIRST line that both contains the target IP
and has a MAC pattern; IP-containing lines without a pattern are
skipped and scanning continues. -/
theorem findMacGo_eq (ip : String) : ∀ lines : List String,
    findMacGo ip lines =
      ((lines.filterMap fun l => if pyContains l ip then lineMacRaw l else none).head?).bind
        normalize_mac_to_dots := by
  intro lines
  induction lines with
  | nil => rfl
  | cons l rest ih =>
    unfold findMacGo
    by_cases hc : pyContains l ip
    · simp only [hc, if_true, List.filterMap_cons]
      rcases hr : lineMacRaw l with _ | raw
      · simpa [hr] using ih
      · simp [hr]
    · simp only [Bool.not_eq_true] at hc
      simp [hc, ih]

/-- C6 counterexample.  The first line containing the target IP has no
MAC pattern, yet the function does not return none: it continues to the
second matching line and returns its MAC, contradicting "returns none
if no MAC pattern matches on that first matching line". -/
theorem C6_first_line_counterexample :
    (pySplitlines "10.0.0.5 nothing\nInternet 10.0.0.5 - aabb.ccdd.eeff ARPA Vlan1").head?
        = some "10.0.0.5 nothing" ∧
      pyContains "10.0.0.5 nothing" "10.0.0.5" = true ∧
      lineMacRaw "10.0.0.5 nothing" = none ∧
      find_mac_in_arp "10.0.0.5 nothing\nInternet 10.0.0.5 - aabb.ccdd.eeff ARPA Vlan1"
          "10.0.0.5" = some "aabb.ccdd.eeff" := by
  refine ⟨by decide, by decide, by decide, by decide⟩

/-- C6 amended.  `find_mac_in_arp` scans every line containing the
target IP as a substring, trying on each the three MAC surface forms in
precedence order (dotted quad, colon/dash octets, 12 contiguous hex
after space removal); it returns the normalization of the pattern match
on the first line where one matches, and none when no line containing
the IP has any MAC pattern (in particular when the IP appears on no
line). -/
theorem C6_find_mac_first_matching_line (arp ip : String) :
    find_mac_in_arp arp ip =
      (((pySplitlines arp).filterMap fun l =>
          if pyContains l ip then lineMacRaw l else none).head?).bind
        normalize_mac_to_dots :=
  findMacGo_eq ip (pySplitlines arp)

/-! ### Claim C7 -/

/-- Per-line extraction actually performed by the hostname scan: the
`" uptime "` test first, then on the same line the `hostname` prefix
(with at least two fields), else nothing. -/
def hostLineExtract (line : String) : Option String :=
  if pyContains line " uptime " then some ((pySplitWs line).headD "")
  else if pyStartsWith (pyLower line) "hostname" ∧ (pySplitWs line).length ≥ 2 then
    (pySplitWs line).getLast?
  else none

/-- The hostname scan returns the extraction of the first line matching
either pattern, in a single pass. -/
theorem hostnameGo_eq : ∀ lines : List String,
    hostnameGo lines = (lines.filterMap hostLineExtract).head? := by
  intro lines
  induction lines with
  | nil => rfl
  | cons l rest ih =>
    by_cases hu : pyContains l " uptime "
    · have hx : hostLineExtract l = some ((pySplitWs l).headD "") := by
        simp [hostLineExtract, hu]
      simp [hostnameGo, hu, hx]
    · by_cases hh : pyStartsWith (pyLower l) "hostname"
      · by_cases hl : (pySplitWs l).length ≥ 2
        · have hne : pySplitWs l ≠ [] := by
            intro h0
            rw [h0] at hl
            simp at hl
          obtain ⟨y, hy⟩ := Option.isSome_iff_exists.mp (List.getLast?_isSome.mpr hne)
          have hx : hostLineExtract l = some y := by
            rw [hostLineExtract]
            simp only [Bool.not_eq_true] at hu
            simp [hu, hh, hl, hy]
          simp only [Bool.not_eq_true] at hu
          simp [hostnameGo, hu, hh, hl, hy, hx]
        · have hx : hostLineExtract l = none := by
            rw [hostLineExtract]
            simp only [Bool.not_eq_true] at hu
            simp [hu, hh, hl]
          simp only [Bool.not_eq_true] at hu
          simp [hostnameGo, hu, hh, hl, hx, ih]
      · have hx : hostLineExtract l = none := by
          rw [hostLineExtract]
          simp only [Bool.not_eq_true] at hu hh
          simp [hu, hh]
        simp only [Bool.not_eq_true] at hu hh
        simp [hostnameGo, hu, hh, hx, ih]

/-- C7 counterexample.  The text has a line containing `" uptime "`
whose first token is `SW1`, but a `hostname` line precedes it and the
function returns that line's last token `foo` — the uptime pattern is
NOT preferred over an earlier hostname line. -/
theorem C7_no_uptime_preference_counterexample :
    ("SW1 uptime is 5 weeks" ∈
        pySplitlines "hostname foo\nSW1 uptime is 5 weeks") ∧
      pyContains "SW1 uptime is 5 weeks" " uptime " = true ∧
      (pySplitWs "SW1 uptime is 5 weeks").headD "" = "SW1" ∧
      get_hostname_from_show_ver "hostname foo\nSW1 uptime is 5 weeks" = some "foo" := by
  refine ⟨by decide, by decide, by decide, by decide⟩

/-- C7 amended.  `get_hostname_from_show_ver` makes a single pass and
returns from the FIRST line matching either pattern: the first token of
a line containing `" uptime "`, or the last token of a line starting
(case-insensitively) with `hostname` that has at least two tokens
(hostname lines with fewer tokens are skipped); none when no line
matches.  There is no global preference of the uptime pattern over an
earlier hostname line. -/
theorem C7_hostname_first_match (s : String) :
    get_hostname_from_show_ver s = ((pySplitlines s).filterMap hostLineExtract).head? :=
  hostnameGo_eq (pySplitlines s)

/-! ### Claim C9 -/

/-- The MAC-table scan returns the last whitespace field of the first
line that contains the MAC case-insensitively AND has at least four
whitespace fields; matching lines with fewer fields are skipped. -/
theorem findIntfGo_eq (mac : String) (hm : mac ≠ "") : ∀ lines : List String,
    findIntfGo mac lines =
      (lines.filterMap fun l =>
        if pyContains (pyLower l) (pyLower mac) ∧ (pySplitWs l).length ≥ 4 then
          (pySplitWs l).getLast?
        else none).head? := by
  intro lines
  induction lines with
  | nil => rfl
  | cons l rest ih =>
    by_cases hc : pyContains (pyLower l) (pyLower mac)
    · by_cases hl : (pySplitWs l).length ≥ 4
      · have hne : pySplitWs l ≠ [] := by
          intro h0
          rw [h0] at hl
          simp at hl
        obtain ⟨y, hy⟩ := Option.isSome_iff_exists.mp (List.getLast?_isSome.mpr hne)
        simp [findIntfGo, hm, hc, hl, hy]
      · simp [findIntfGo, hm, hc, hl, ih]
    · simp only [Bool.not_eq_true] at hc
      simp [findIntfGo, hm, hc, ih]

/-- C9.  For every MAC-table text and nonempty canonical MAC,
`find_interface_by_mac` returns the last whitespace-separated field of
the first line containing the MAC case-insensitively with at least four
fields, skipping matching lines with fewer than four fields, and none
when no line qualifies. -/
theorem C9_interface_lookup (text mac : String) (hm : mac ≠ "") :
    find_interface_by_mac text mac =
      ((pySplitlines text).filterMap fun l =>
        if pyContains (pyLower l) (pyLower mac) ∧ (pySplitWs l).length ≥ 4 then
          (pySplitWs l).getLast?
        else none).head? :=
  findIntfGo_eq mac hm (pySplitlines text)

/-- Witness for C9 at the spec's own example row. -/
theorem C9_interface_lookup_witness :
    find_interface_by_mac "  1    aabb.ccdd.eeff    DYNAMIC     Gi1/0/1" "aabb.ccdd.eeff"
        = some "Gi1/0/1" ∧
      ((pySplitlines "  1    aabb.ccdd.eeff    DYNAMIC     Gi1/0/1").filterMap fun l =>
        if pyContains (pyLower l) (pyLower "aabb.ccdd.eeff") ∧ (pySplitWs l).length ≥ 4 then
          (pySplitWs l).getLast?
        else none).head? = some "Gi1/0/1" := by
  have h := C9_interface_lookup "  1    aabb.ccdd.eeff    DYNAMIC     Gi1/0/1"
    "aabb.ccdd.eeff" (by decide)
  exact ⟨h.trans (by decide), by decide⟩

/-! ### Claim C8 -/

/-- Per-line device-id extraction of the CDP loop: a stripped line whose
lower-casing starts with `device id:` yields the stripped text after the
first colon. -/
def lineDeviceId (l : String) : Option String :=
  if pyStartsWith (pyLower (pyStrip l)) "device id:" then
    some (String.mk (pyStripL (afterFirstColon (pyStrip l).toList)))
  else none

/-- Per-line neighbor-IP extraction of the CDP loop. -/
def lineIp (l : String) : Option String :=
  searchIp (pyStrip l).toList

/-- Per-line port extraction of the CDP loop. -/
def linePort (l : String) : Option String :=
  searchPort (pyStrip l).toList

/-- `getLast?` of a cons, written with `Option.or`. -/
theorem getLast?_cons_or {α : Type} (a : α) (xs : List α) :
    (a :: xs).getLast? = xs.getLast?.or (some a) := by
  cases xs with
  | nil => rfl
  | cons y t =>
    rw [List.getLast?_cons_cons]
    have h : (y :: t).getLast?.isSome := List.getLast?_isSome.mpr (by simp)
    obtain ⟨z, hz⟩ := Option.isSome_iff_exists.mp h
    simp [hz]

/-- The CDP line loop: the device id is the last device-id line's value,
the IPs accumulate in encounter order, and the port is the last
port-line's value. -/
theorem cdp_foldl_spec : ∀ (lines : List String) (st : CdpSt),
    ((lines.foldl cdpStep st).device_id
        = ((lines.filterMap lineDeviceId).getLast?).or st.device_id)
    ∧ ((lines.foldl cdpStep st).ips = st.ips ++ lines.filterMap lineIp)
    ∧ ((lines.foldl cdpStep st).neighbor_port
        = ((lines.filterMap linePort).getLast?).or st.neighbor_port) := by
  intro lines
  induction lines with
  | nil => intro st; simp
  | cons l rest ih =>
    intro st
    have hstep : (cdpStep st l).device_id = (lineDeviceId l).or st.device_id
        ∧ (cdpStep st l).ips = st.ips ++ (lineIp l).toList
        ∧ (cdpStep st l).neighbor_port = (linePort l).or st.neighbor_port := by
      refine ⟨?_, ?_, ?_⟩
      · by_cases hd : pyStartsWith (pyLower (pyStrip l)) "device id:"
        · simp [cdpStep, lineDeviceId, hd]
        · simp [cdpStep, lineDeviceId, hd]
      · rcases h : searchIp (pyStrip l).toList with _ | ip
        · simp only [String.toList] at h
          simp [cdpStep, lineIp, String.toList, h]
        · simp only [String.toList] at h
          simp [cdpStep, lineIp, String.toList, h]
      · rcases h : searchPort (pyStrip l).toList with _ | q
        · simp only [String.toList] at h
          simp [cdpStep, linePort, String.toList, h]
        · simp only [String.toList] at h
          simp [cdpStep, linePort, String.toList, h]
    obtain ⟨ihd, ihi, ihp⟩ := ih (cdpStep st l)
    refine ⟨?_, ?_, ?_⟩
    · rw [List.foldl_cons, ihd, hstep.1, List.filterMap_cons]
      rcases hd : lineDeviceId l with _ | d
      · simp
      · rw [getLast?_cons_or, Option.or_assoc]
    · rw [List.foldl_cons, ihi, hstep.2.1, List.filterMap_cons]
      rcases hi : lineIp l with _ | ip
      · simp
      · simp
    · rw [List.foldl_cons, ihp, hstep.2.2, List.filterMap_cons]
      rcases hp : linePort l with _ | q
      · simp
      · rw [getLast?_cons_or, Option.or_assoc]

/-- C8.  `parse_cdp_int_detail_for_ip` returns none for every text
lacking the literal `Device ID` marker; returns none when no device-id
line is found even if IP lines are present; and every returned record
carries exactly the IPs of the `IP address:` lines in encounter order
and the port of the last matching `Port ID` line. -/
theorem C8_cdp_parse_spec :
    (∀ t, pyContains t "Device ID" = false → parse_cdp_int_detail_for_ip t = none)
    ∧ (∀ t, (pySplitlines t).filterMap lineDeviceId = [] →
        parse_cdp_int_detail_for_ip t = none)
    ∧ (∀ t r, parse_cdp_int_detail_for_ip t = some r →
        r.ips = (pySplitlines t).filterMap lineIp
        ∧ r.neighbor_port = ((pySplitlines t).filterMap linePort).getLast?) := by
  refine ⟨?_, ?_, ?_⟩
  · intro t h
    unfold parse_cdp_int_detail_for_ip
    simp [h]
  · intro t h
    unfold parse_cdp_int_detail_for_ip
    split
    · rfl
    · have hd := (cdp_foldl_spec (pySplitlines t) ⟨none, [], none⟩).1
      rw [h] at hd
      simp only [List.getLast?, Option.none_or] at hd
      dsimp only
      rw [hd]
  · intro t r hr
    unfold parse_cdp_int_detail_for_ip at hr
    split at hr
    · exact absurd hr (by simp)
    · obtain ⟨hd, hi, hp⟩ := cdp_foldl_spec (pySplitlines t) ⟨none, [], none⟩
      dsimp only at hr
      split at hr
      · rename_i d hdev
        split at hr
        · exact absurd hr (by simp)
        · obtain rfl : CdpNeighbor.mk d
              ((pySplitlines t).foldl cdpStep ⟨none, [], none⟩).ips
              ((pySplitlines t).foldl cdpStep ⟨none, [], none⟩).neighbor_port = r := by
            simpa using hr
          constructor
          · rw [hi]
            simp
          · rw [hp]
            simp [Option.or_none]
      · exact absurd hr (by simp)

/-- Witness for C8 at the spec's example and a marker-less text. -/
theorem C8_cdp_parse_spec_witness :
    parse_cdp_int_detail_for_ip "IP address: 10.0.0.1" = none ∧
      (CdpNeighbor.mk "SW2" ["10.0.0.1"] (some "Gi0/1")).ips
        = (pySplitlines
            "Device ID: SW2\nIP address: 10.0.0.1\nPort ID (outgoing port): Gi0/1").filterMap
            lineIp ∧
      (CdpNeighbor.mk "SW2" ["10.0.0.1"] (some "Gi0/1")).neighbor_port
        = ((pySplitlines
            "Device ID: SW2\nIP address: 10.0.0.1\nPort ID (outgoing port): Gi0/1").filterMap
            linePort).getLast? := by
  have h1 := C8_cdp_parse_spec.1 "IP address: 10.0.0.1" (by decide)
  have h3 := C8_cdp_parse_spec.2.2
    "Device ID: SW2\nIP address: 10.0.0.1\nPort ID (outgoing port): Gi0/1"
    (CdpNeighbor.mk "SW2" ["10.0.0.1"] (some "Gi0/1")) (by decide)
  exact ⟨h1, h3.1, h3.2⟩

/-! ### Claim C10 -/

/-- Shape of a canonical MAC: three dot-separated groups of four
lower-case hex digits. -/
def canonShape : List Char → Bool
  | [a1, a2, a3, a4, d1, b1, b2, b3, b4, d2, c1, c2, c3, c4] =>
    isLowerHex a1 && isLowerHex a2 && isLowerHex a3 && isLowerHex a4 && d1 = '.' &&
    isLowerHex b1 && isLowerHex b2 && isLowerHex b3 && isLowerHex b4 && d2 = '.' &&
    isLowerHex c1 && isLowerHex c2 && isLowerHex c3 && isLowerHex c4
  | _ => false

/-- `m` is in canonical dotted form `xxxx.xxxx.xxxx`, lower-case hex. -/
def isCanonicalMac (m : String) : Bool := canonShape m.toList

theorem lowerHex_not_space {c : Char} (h : isLowerHex c = true) : pyIsSpace c = false := by
  unfold isLowerHex at h
  unfold pyIsSpace
  simp only [Bool.or_eq_true, Bool.and_eq_true, decide_eq_true_eq] at h
  simp only [Bool.or_eq_false_iff, decide_eq_false_iff_not]
  omega

theorem lowerHex_lower_self {c : Char} (h : isLowerHex c = true) : lowerChar c = c := by
  unfold isLowerHex at h
  unfold lowerChar
  simp only [Bool.or_eq_true, Bool.and_eq_true, decide_eq_true_eq] at h
  rw [if_neg]
  simp only [Bool.and_eq_true, decide_eq_true_eq, not_and]
  omega

theorem lowerHex_ne_dot {c : Char} (h : isLowerHex c = true) : (c = '.') = False := by
  unfold isLowerHex at h
  simp only [Bool.or_eq_true, Bool.and_eq_true, decide_eq_true_eq] at h
  simp only [eq_iff_iff, iff_false]
  intro he
  subst he
  simp at h

theorem lowerHex_ne_colon {c : Char} (h : isLowerHex c = true) : (c = ':') = False := by
  unfold isLowerHex at h
  simp only [Bool.or_eq_true, Bool.and_eq_true, decide_eq_true_eq] at h
  simp only [eq_iff_iff, iff_false]
  intro he
  subst he
  simp at h

theorem lowerHex_ne_dash {c : Char} (h : isLowerHex c = true) : (c = '-') = False := by
  unfold isLowerHex at h
  simp only [Bool.or_eq_true, Bool.and_eq_true, decide_eq_true_eq] at h
  simp only [eq_iff_iff, iff_false]
  intro he
  subst he
  simp at h

theorem lowerHex_hexCI {c : Char} (h : isLowerHex c = true) : isHexCI c = true := by
  unfold isLowerHex at h
  unfold isHexCI
  simp only [Bool.or_eq_true, Bool.and_eq_true, decide_eq_true_eq] at h ⊢
  omega

theorem hexCI_not_space {c : Char} (h : isHexCI c = true) : pyIsSpace c = false := by
  unfold isHexCI at h
  unfold pyIsSpace
  simp only [Bool.or_eq_true, Bool.and_eq_true, decide_eq_true_eq] at h
  simp only [Bool.or_eq_false_iff, decide_eq_false_iff_not]
  omega

theorem hexCI_lower_lowerHex {c : Char} (h : isHexCI c = true) :
    isLowerHex (lowerChar c) = true := by
  unfold isHexCI at h
  simp only [Bool.or_eq_true, Bool.and_eq_true, decide_eq_true_eq] at h
  rcases h with (h | h) | h
  · rw [lowerHex_lower_self]
    · unfold isLowerHex
      simp only [Bool.or_eq_true, Bool.and_eq_true, decide_eq_true_eq]
      omega
    · unfold isLowerHex
      simp only [Bool.or_eq_true, Bool.and_eq_true, decide_eq_true_eq]
      omega
  · rw [lowerHex_lower_self]
    · unfold isLowerHex
      simp only [Bool.or_eq_true, Bool.and_eq_true, decide_eq_true_eq]
      omega
    · unfold isLowerHex
      simp only [Bool.or_eq_true, Bool.and_eq_true, decide_eq_true_eq]
      omega
  · have h6 : c.toNat = 65 ∨ c.toNat = 66 ∨ c.toNat = 67 ∨ c.toNat = 68 ∨
        c.toNat = 69 ∨ c.toNat = 70 := by omega
    unfold lowerChar
    rw [if_pos (by simp only [Bool.and_eq_true, decide_eq_true_eq]; omega)]
    rcases h6 with h6 | h6 | h6 | h6 | h6 | h6
    · rw [h6]; decide
    · rw [h6]; decide
    · rw [h6]; decide
    · rw [h6]; decide
    · rw [h6]; decide
    · rw [h6]; decide

theorem pyStripL_eq_self (l : List Char) (h : ∀ c ∈ l, pyIsSpace c = false) :
    pyStripL l = l := by
  unfold pyStripL
  have h1 : l.dropWhile pyIsSpace = l := by
    cases l with
    | nil => rfl
    | cons a t =>
      rw [List.dropWhile_cons_of_neg]
      simp [h a (by simp)]
  rw [h1]
  have h2 : l.reverse.dropWhile pyIsSpace = l.reverse := by
    cases hr : l.reverse with
    | nil => rfl
    | cons a t =>
      rw [List.dropWhile_cons_of_neg]
      have ha : a ∈ l := by
        rw [← List.mem_reverse, hr]
        simp
      simp [h a ha]
  rw [h2, List.reverse_reverse]

theorem clean_filters (l : List Char)
    (h : ∀ c ∈ l, isHexCI c = true ∨ c = '.' ∨ c = ':' ∨ c = '-') :
    removeChar '-' (removeChar ':' (removeChar '.' (l.map lowerChar)))
      = (l.filter isHexCI).map lowerChar := by
  induction l with
  | nil => rfl
  | cons c t ih =>
    have hc := h c (by simp)
    have ht : ∀ x ∈ t, isHexCI x = true ∨ x = '.' ∨ x = ':' ∨ x = '-' :=
      fun x hx => h x (by simp [hx])
    rcases hc with hc | hc | hc | hc
    · have hlh := hexCI_lower_lowerHex hc
      simp only [List.map_cons, removeChar, List.filter_cons]
      rw [← removeChar, ← removeChar, ← removeChar]
      simp only [hc, if_true]
      have e1 : (lowerChar c ≠ '.') = True := by
        simp [lowerHex_ne_dot hlh]
      have e2 : (lowerChar c ≠ ':') = True := by
        simp [lowerHex_ne_colon hlh]
      have e3 : (lowerChar c ≠ '-') = True := by
        simp [lowerHex_ne_dash hlh]
      simp only [removeChar, List.filter_cons, e1, e2, e3, decide_True, if_true]
      rw [← removeChar, ← removeChar, ← removeChar, ih ht]
      simp
    · subst hc
      have : lowerChar '.' = '.' := by decide
      simp only [List.map_cons, this, removeChar, List.filter_cons]
      have hf : isHexCI '.' = false := by decide
      simp only [hf, decide_True, ne_eq, not_true_eq_false, decide_False, Bool.false_eq_true,
        if_false, List.filter_cons_of_neg]
      rw [← removeChar, ← removeChar, ← removeChar]
      exact ih ht
    · subst hc
      have hlc : lowerChar ':' = ':' := by decide
      simp only [List.map_cons, hlc, removeChar, List.filter_cons]
      have hf : isHexCI ':' = false := by decide
      simp only [hf, Bool.false_eq_true, if_false]
      have hne : ((':' : Char) ≠ '.') = True := by decide
      simp only [hne, decide_True, if_true, ne_eq, not_true_eq_false, decide_False,
        Bool.false_eq_true, List.filter_cons_of_neg]
      rw [← removeChar, ← removeChar, ← removeChar]
      exact ih ht
    · subst hc
      have hlc : lowerChar '-' = '-' := by decide
      simp only [List.map_cons, hlc, removeChar, List.filter_cons]
      have hf : isHexCI '-' = false := by decide
      simp only [hf, Bool.false_eq_true, if_false]
      have hne1 : (('-' : Char) ≠ '.') = True := by decide
      have hne2 : (('-' : Char) ≠ ':') = True := by decide
      simp only [hne1, hne2, decide_True, if_true, ne_eq, not_true_eq_false, decide_False,
        Bool.false_eq_true, List.filter_cons_of_neg]
      rw [← removeChar, ← removeChar, ← removeChar]
      exact ih ht

theorem normalize_clean (w : List Char)
    (hclean : ∀ c ∈ w, isHexCI c = true ∨ c = '.' ∨ c = ':' ∨ c = '-')
    (hlen : (w.filter isHexCI).length = 12)
    (hne : w ≠ []) :
    macStrippedForm (String.mk w) = (w.filter isHexCI).map lowerChar
    ∧ normalize_mac_to_dots (String.mk w)
        = some (fmtDots ((w.filter isHexCI).map lowerChar)) := by
  have hsp : ∀ c ∈ w, pyIsSpace c = false := by
    intro c hc
    rcases hclean c hc with h | h | h | h
    · exact hexCI_not_space h
    · subst h; decide
    · subst h; decide
    · subst h; decide
  have hstrip : pyStripL w = w := pyStripL_eq_self w hsp
  have hform : macStrippedForm (String.mk w) = (w.filter isHexCI).map lowerChar := by
    unfold macStrippedForm
    rw [show (String.mk w).toList = w from rfl, hstrip, clean_filters w hclean]
  refine ⟨hform, ?_⟩
  unfold normalize_mac_to_dots
  rw [if_neg (by
    intro h0
    exact hne (by simpa using congrArg String.data h0))]
  dsimp only
  rw [hform]
  rw [if_neg (by simp [hlen])]

theorem fmt12_canon (l : List Char) (hlen : l.length = 12)
    (hall : ∀ c ∈ l, isLowerHex c = true) :
    isCanonicalMac (fmtDots l) = true
    ∧ normalize_mac_to_dots (fmtDots l) = some (fmtDots l) := by
  obtain ⟨x1, x2, x3, x4, x5, x6, x7, x8, x9, x10, x11, x12, rfl⟩ :
      ∃ a1 a2 a3 a4 a5 a6 a7 a8 a9 a10 a11 a12,
        l = [a1, a2, a3, a4, a5, a6, a7, a8, a9, a10, a11, a12] := by
    rcases l with _|⟨x1,_|⟨x2,_|⟨x3,_|⟨x4,_|⟨x5,_|⟨x6,_|⟨x7,_|⟨x8,_|⟨x9,_|⟨x10,_|⟨x11,_|⟨x12,_|⟨x13,l⟩⟩⟩⟩⟩⟩⟩⟩⟩⟩⟩⟩⟩ <;>
      simp at hlen
    exact ⟨x1, x2, x3, x4, x5, x6, x7, x8, x9, x10, x11, x12, rfl⟩
  have h1 := hall x1 (by simp)
  have h2 := hall x2 (by simp)
  have h3 := hall x3 (by simp)
  have h4 := hall x4 (by simp)
  have h5 := hall x5 (by simp)
  have h6 := hall x6 (by simp)
  have h7 := hall x7 (by simp)
  have h8 := hall x8 (by simp)
  have h9 := hall x9 (by simp)
  have h10 := hall x10 (by simp)
  have h11 := hall x11 (by simp)
  have h12 := hall x12 (by simp)
  have hfmt : fmtDots [x1, x2, x3, x4, x5, x6, x7, x8, x9, x10, x11, x12]
      = String.mk [x1, x2, x3, x4, '.', x5, x6, x7, x8, '.', x9, x10, x11, x12] := rfl
  rw [hfmt]
  constructor
  · unfold isCanonicalMac canonShape
    rw [show (String.mk [x1, x2, x3, x4, '.', x5, x6, x7, x8, '.', x9, x10, x11, x12]).toList
      = [x1, x2, x3, x4, '.', x5, x6, x7, x8, '.', x9, x10, x11, x12] from rfl]
    simp [h1, h2, h3, h4, h5, h6, h7, h8, h9, h10, h11, h12]
  · have hcl : ∀ c ∈ [x1, x2, x3, x4, '.', x5, x6, x7, x8, '.', x9, x10, x11, x12],
        isHexCI c = true ∨ c = '.' ∨ c = ':' ∨ c = '-' := by
      intro c hc
      simp only [List.mem_cons, List.not_mem_nil, or_false] at hc
      rcases hc with rfl | rfl | rfl | rfl | rfl | rfl | rfl | rfl | rfl | rfl | rfl | rfl | rfl | rfl
      · exact Or.inl (lowerHex_hexCI h1)
      · exact Or.inl (lowerHex_hexCI h2)
      · exact Or.inl (lowerHex_hexCI h3)
      · exact Or.inl (lowerHex_hexCI h4)
      · exact Or.inr (Or.inl rfl)
      · exact Or.inl (lowerHex_hexCI h5)
      · exact Or.inl (lowerHex_hexCI h6)
      · exact Or.inl (lowerHex_hexCI h7)
      · exact Or.inl (lowerHex_hexCI h8)
      · exact Or.inr (Or.inl rfl)
      · exact Or.inl (lowerHex_hexCI h9)
      · exact Or.inl (lowerHex_hexCI h10)
      · exact Or.inl (lowerHex_hexCI h11)
      · exact Or.inl (lowerHex_hexCI h12)
    have hfil : ([x1, x2, x3, x4, '.', x5, x6, x7, x8, '.', x9, x10, x11, x12].filter isHexCI)
        = [x1, x2, x3, x4, x5, x6, x7, x8, x9, x10, x11, x12] := by
      have hd : isHexCI '.' = false := by decide
      simp [List.filter_cons, lowerHex_hexCI h1, lowerHex_hexCI h2, lowerHex_hexCI h3,
        lowerHex_hexCI h4, lowerHex_hexCI h5, lowerHex_hexCI h6, lowerHex_hexCI h7,
        lowerHex_hexCI h8, lowerHex_hexCI h9, lowerHex_hexCI h10, lowerHex_hexCI h11,
        lowerHex_hexCI h12, hd]
    have hmap : ([x1, x2, x3, x4, x5, x6, x7, x8, x9, x10, x11, x12].map lowerChar)
        = [x1, x2, x3, x4, x5, x6, x7, x8, x9, x10, x11, x12] := by
      simp [lowerHex_lower_self h1, lowerHex_lower_self h2, lowerHex_lower_self h3,
        lowerHex_lower_self h4, lowerHex_lower_self h5, lowerHex_lower_self h6,
        lowerHex_lower_self h7, lowerHex_lower_self h8, lowerHex_lower_self h9,
        lowerHex_lower_self h10, lowerHex_lower_self h11, lowerHex_lower_self h12]
    have hn := normalize_clean [x1, x2, x3, x4, '.', x5, x6, x7, x8, '.', x9, x10, x11, x12]
      hcl (by rw [hfil]; rfl) (by simp)
    rw [hn.2, hfil, hmap, hfmt]

theorem searchDotted_shape : ∀ l w, searchDotted l = some w → dottedShape w = true := by
  intro l
  induction l with
  | nil => intro w h; simp [searchDotted] at h
  | cons c t ih =>
    intro w h
    unfold searchDotted at h
    split at h
    · rename_i hs
      obtain rfl : (c :: t).take 14 = w := by simpa using h
      exact hs
    · exact ih w h

theorem searchColonDash_shape : ∀ l w, searchColonDash l = some w → colonDashShape w = true := by
  intro l
  induction l with
  | nil => intro w h; simp [searchColonDash] at h
  | cons c t ih =>
    intro w h
    unfold searchColonDash at h
    split at h
    · rename_i hs
      obtain rfl : (c :: t).take 17 = w := by simpa using h
      exact hs
    · exact ih w h

theorem searchHex12_shape : ∀ l w, searchHex12 l = some w → hex12Shape w = true := by
  intro l
  induction l with
  | nil => intro w h; simp [searchHex12] at h
  | cons c t ih =>
    intro w h
    unfold searchHex12 at h
    split at h
    · rename_i hs
      obtain rfl : (c :: t).take 12 = w := by simpa using h
      exact hs
    · exact ih w h

theorem dotted_clean (w : List Char) (h : dottedShape w = true) :
    (∀ c ∈ w, isHexCI c = true ∨ c = '.' ∨ c = ':' ∨ c = '-')
    ∧ (w.filter isHexCI).length = 12 ∧ w ≠ [] := by
  unfold dottedShape at h
  split at h
  · rename_i a1 a2 a3 a4 d1 b1 b2 b3 b4 d2 c1 c2 c3 c4
    simp only [Bool.and_assoc, Bool.and_eq_true, decide_eq_true_eq] at h
    obtain ⟨k1, k2, k3, k4, kd1, k5, k6, k7, k8, kd2, k9, k10, k11, k12⟩ := h
    subst kd1
    subst kd2
    refine ⟨?_, ?_, by simp⟩
    · intro c hc
      simp only [List.mem_cons, List.not_mem_nil, or_false] at hc
      rcases hc with rfl | rfl | rfl | rfl | rfl | rfl | rfl | rfl | rfl | rfl | rfl | rfl | rfl | rfl
      · exact Or.inl k1
      · exact Or.inl k2
      · exact Or.inl k3
      · exact Or.inl k4
      · exact Or.inr (Or.inl rfl)
      · exact Or.inl k5
      · exact Or.inl k6
      · exact Or.inl k7
      · exact Or.inl k8
      · exact Or.inr (Or.inl rfl)
      · exact Or.inl k9
      · exact Or.inl k10
      · exact Or.inl k11
      · exact Or.inl k12
    · have hd : isHexCI '.' = false := by decide
      simp [List.filter_cons, k1, k2, k3, k4, k5, k6, k7, k8, k9, k10, k11, k12, hd]
  · exact absurd h (by simp)

theorem colonDash_clean (w : List Char) (h : colonDashShape w = true) :
    (∀ c ∈ w, isHexCI c = true ∨ c = '.' ∨ c = ':' ∨ c = '-')
    ∧ (w.filter isHexCI).length = 12 ∧ w ≠ [] := by
  unfold colonDashShape at h
  split at h
  · rename_i a1 a2 s1 b1 b2 s2 c1 c2 s3 d1 d2 s4 e1 e2 s5 f1 f2
    simp only [Bool.and_assoc, Bool.and_eq_true, decide_eq_true_eq] at h
    obtain ⟨k1, k2, ks1, k3, k4, ks2, k5, k6, ks3, k7, k8, ks4, k9, k10, ks5, k11, k12⟩ := h
    have hsep : ∀ s : Char, isSepCD s = true → (s = ':' ∨ s = '-') := by
      intro s hs
      unfold isSepCD at hs
      simpa using hs
    have hsf : ∀ s : Char, isSepCD s = true → isHexCI s = false := by
      intro s hs
      rcases hsep s hs with rfl | rfl
      · decide
      · decide
    refine ⟨?_, ?_, by simp⟩
    · intro c hc
      simp only [List.mem_cons, List.not_mem_nil, or_false] at hc
      rcases hc with rfl | rfl | rfl | rfl | rfl | rfl | rfl | rfl | rfl | rfl | rfl | rfl | rfl |
        rfl | rfl | rfl | rfl
      · exact Or.inl k1
      · exact Or.inl k2
      · rcases hsep _ ks1 with rfl | rfl
        · exact Or.inr (Or.inr (Or.inl rfl))
        · exact Or.inr (Or.inr (Or.inr rfl))
      · exact Or.inl k3
      · exact Or.inl k4
      · rcases hsep _ ks2 with rfl | rfl
        · exact Or.inr (Or.inr (Or.inl rfl))
        · exact Or.inr (Or.inr (Or.inr rfl))
      · exact Or.inl k5
      · exact Or.inl k6
      · rcases hsep _ ks3 with rfl | rfl
        · exact Or.inr (Or.inr (Or.inl rfl))
        · exact Or.inr (Or.inr (Or.inr rfl))
      · exact Or.inl k7
      · exact Or.inl k8
      · rcases hsep _ ks4 with rfl | rfl
        · exact Or.inr (Or.inr (Or.inl rfl))
        · exact Or.inr (Or.inr (Or.inr rfl))
      · exact Or.inl k9
      · exact Or.inl k10
      · rcases hsep _ ks5 with rfl | rfl
        · exact Or.inr (Or.inr (Or.inl rfl))
        · exact Or.inr (Or.inr (Or.inr rfl))
      · exact Or.inl k11
      · exact Or.inl k12
    · simp [List.filter_cons, k1, k2, k3, k4, k5, k6, k7, k8, k9, k10, k11, k12,
        hsf _ ks1, hsf _ ks2, hsf _ ks3, hsf _ ks4, hsf _ ks5]
  · exact absurd h (by simp)

theorem hex12_clean (w : List Char) (h : hex12Shape w = true) :
    (∀ c ∈ w, isHexCI c = true ∨ c = '.' ∨ c = ':' ∨ c = '-')
    ∧ (w.filter isHexCI).length = 12 ∧ w ≠ [] := by
  unfold hex12Shape at h
  simp only [Bool.and_eq_true, decide_eq_true_eq, List.all_eq_true] at h
  obtain ⟨hlen, hall⟩ := h
  refine ⟨fun c hc => Or.inl (hall c hc), ?_, ?_⟩
  · rw [List.filter_eq_self.mpr hall, hlen]
  · intro h0
    rw [h0] at hlen
    simp at hlen

theorem lineMacRaw_clean (l : String) (raw : String) (h : lineMacRaw l = some raw) :
    ∃ w, raw = String.mk w
      ∧ (∀ c ∈ w, isHexCI c = true ∨ c = '.' ∨ c = ':' ∨ c = '-')
      ∧ (w.filter isHexCI).length = 12 ∧ w ≠ [] := by
  unfold lineMacRaw at h
  rcases h1 : searchDotted l.toList with _ | w1
  · rcases h2 : searchColonDash l.toList with _ | w2
    · rcases h3 : searchHex12 (removeChar ' ' l.toList) with _ | w3
      · rw [h1, h2, h3] at h
        simp at h
      · rw [h1, h2, h3] at h
        obtain rfl : String.mk w3 = raw := by simpa using h
        exact ⟨w3, rfl, hex12_clean w3 (searchHex12_shape _ w3 h3)⟩
    · rw [h1, h2] at h
      obtain rfl : String.mk w2 = raw := by simpa using h
      exact ⟨w2, rfl, colonDash_clean w2 (searchColonDash_shape _ w2 h2)⟩
  · rw [h1] at h
    obtain rfl : String.mk w1 = raw := by simpa using h
    exact ⟨w1, rfl, dotted_clean w1 (searchDotted_shape _ w1 h1)⟩

theorem findMacGo_some (ip m : String) : ∀ lines : List String,
    findMacGo ip lines = some m →
    ∃ raw, (∃ l : String, lineMacRaw l = some raw) ∧ normalize_mac_to_dots raw = some m := by
  intro lines
  induction lines with
  | nil => intro h; simp [findMacGo] at h
  | cons l rest ih =>
    intro h
    unfold findMacGo at h
    split at h
    · rcases hr : lineMacRaw l with _ | raw
      · rw [hr] at h
        exact ih h
      · rw [hr] at h
        exact ⟨raw, ⟨l, hr⟩, h⟩
    · exact ih h

theorem find_mac_canonical (arp ip m : String) (h : find_mac_in_arp arp ip = some m) :
    isCanonicalMac m = true ∧ normalize_mac_to_dots m = some m := by
  obtain ⟨raw, ⟨l, hraw⟩, hnorm⟩ := findMacGo_some ip m (pySplitlines arp) h
  obtain ⟨w, rfl, hclean, hlen, hne⟩ := lineMacRaw_clean l raw hraw
  have hn := normalize_clean w hclean hlen hne
  rw [hn.2] at hnorm
  obtain rfl : fmtDots ((w.filter isHexCI).map lowerChar) = m := by simpa using hnorm
  have hlen2 : ((w.filter isHexCI).map lowerChar).length = 12 := by
    rw [List.length_map, hlen]
  have hall2 : ∀ c ∈ (w.filter isHexCI).map lowerChar, isLowerHex c = true := by
    intro c hc
    obtain ⟨x, hx, rfl⟩ := List.mem_map.mp hc
    exact hexCI_lower_lowerHex (List.of_mem_filter hx)
  exact fmt12_canon _ hlen2 hall2

theorem hop_done_arp (net : Net) (user pwd ip host : String) (r : TraceResult)
    (h : hop net user pwd ip host = .done r) :
    ∃ d : Device, find_mac_in_arp d.arp ip = some r.mac := by
  unfold hop at h
  rcases hc : try_connect (net host) user pwd with _ | dc
  · rw [hc] at h
    simp at h
  · obtain ⟨d, creds⟩ := dc
    rw [hc] at h
    dsimp only at h
    rcases hm : find_mac_in_arp d.arp ip with _ | mac
    · rw [hm] at h
      simp at h
    · rw [hm] at h
      dsimp only at h
      split at h
      · exact absurd h (by simp)
      · split at h
        · exact absurd h (by simp)
        · split at h
          · exact absurd h (by simp)
          · split at h
            · refine ⟨d, ?_⟩
              rw [hm]
              have := (HopOutcome.done.inj h)
              rw [← this]
            · split at h
              · refine ⟨d, ?_⟩
                rw [hm]
                have := (HopOutcome.done.inj h)
                rw [← this]
              · exact absurd h (by simp)

/-- C10.  Every MAC returned by `find_mac_in_arp` is canonical — twelve
lower-case hex digits in dotted groups of four — and a fixed point of
`normalize_mac_to_dots`; consequently the `mac` field of every
`TraceResult` the walker emits is in this canonical dotted form. -/
theorem C10_mac_canonical :
    (∀ arp ip m, find_mac_in_arp arp ip = some m →
        isCanonicalMac m = true ∧ normalize_mac_to_dots m = some m)
    ∧ (∀ (net : Net) (user pwd ip : String) (fuel : Nat) (host : String) (r : TraceResult),
        rastrear_fuel net user pwd ip fuel host = some (some r) →
        isCanonicalMac r.mac = true ∧ normalize_mac_to_dots r.mac = some r.mac) := by
  refine ⟨fun arp ip m h => find_mac_canonical arp ip m h, ?_⟩
  intro net user pwd ip fuel
  induction fuel with
  | zero => intro host r h; simp [rastrear_fuel] at h
  | succ n ih =>
    intro host r h
    unfold rastrear_fuel at h
    split at h
    · exact absurd h (by simp)
    · rename_i r' hdone
      have hr : r' = r := by simpa using h
      obtain ⟨d, hd⟩ := hop_done_arp net user pwd ip host r' hdone
      rw [← hr]
      exact find_mac_canonical d.arp ip r'.mac hd
    · exact ih _ r h

/-- Witness for C10: applying the theorem to the spec's example ARP
line yields the canonical-form and fixed-point facts for the returned
MAC. -/
theorem C10_mac_canonical_witness :
    isCanonicalMac "aabb.ccdd.eeff" = true ∧
      normalize_mac_to_dots "aabb.ccdd.eeff" = some "aabb.ccdd.eeff" :=
  C10_mac_canonical.1 "Internet  10.0.0.5   -   aabb.ccdd.eeff  ARPA  Vlan1" "10.0.0.5"
    "aabb.ccdd.eeff" (by decide)

end NetTrace
